import Mathlib

/-!
Verification of the movie-graph core: pairwise similarity scoring
(`src/graph/calculSimilarites.py`), threshold filtering and 3D layout
(`src/graph/filtrageGraphe.py`), and the recommendation engine
(`src/reco/algorithmeRecommandation.py`).

Python floats are idealised as exact rationals (ℚ) wherever the source only
adds, multiplies, divides and compares, and as real numbers (ℝ) where the
source calls `math.exp` / `math.sqrt`.  Python dicts that the source iterates
over are modelled as insertion-ordered association lists, matching CPython's
guaranteed insertion-order iteration.
-/

/-- A movie record (`films_data` entry).  Fields not consulted by the scored
functions (rating, poster, catalog id) are omitted.  `none` models both a
missing key and a JSON `null`; a non-string title behaves exactly like an
absent one in every modelled function, so `Option String` is sufficient. -/
structure Film where
  titre : Option String
  titre_original : Option String
  acteurs : List String
  realisateur : Option String
  genres : List String
  annee : Option Int
deriving DecidableEq

/-- The all-absent movie record (placeholder for out-of-range indexing). -/
def filmVide : Film := ⟨none, none, [], none, [], none⟩

/-- Python truthiness of an optional string: `None` and `""` are falsy. -/
def truthyStr (o : Option String) : Bool :=
  match o with
  | none => false
  | some s => !(s == "")

/-- Source `calculer_similarite_acteurs` of calculSimilarites.py: Jaccard index of
the two cast-name sets, boosted by `1 + 0.2·|∩|` (capped at 1) when the
intersection has more than one member; `0` if either set is empty. -/
def calculer_similarite_acteurs (film1 film2 : Film) : ℚ :=
  if film1.acteurs.toFinset = ∅ ∨ film2.acteurs.toFinset = ∅ then 0
  else if (film1.acteurs.toFinset ∪ film2.acteurs.toFinset).card = 0 then 0
  else if 1 < (film1.acteurs.toFinset ∩ film2.acteurs.toFinset).card then
    min 1 ((((film1.acteurs.toFinset ∩ film2.acteurs.toFinset).card : ℚ) /
        ((film1.acteurs.toFinset ∪ film2.acteurs.toFinset).card : ℚ)) *
      (1 + 0.2 * ((film1.acteurs.toFinset ∩ film2.acteurs.toFinset).card : ℚ)))
  else ((film1.acteurs.toFinset ∩ film2.acteurs.toFinset).card : ℚ) /
    ((film1.acteurs.toFinset ∪ film2.acteurs.toFinset).card : ℚ)

/-- Source `calculer_similarite_realisateur`: 1 when both directors are present
(non-empty) and equal case-insensitively, else 0.  Python's
`not real1 or not real2` treats `None` and `""` alike. -/
def calculer_similarite_realisateur (film1 film2 : Film) : ℚ :=
  if !truthyStr film1.realisateur || !truthyStr film2.realisateur then 0
  else if (film1.realisateur.getD "").toLower = (film2.realisateur.getD "").toLower then 1
  else 0

/-- Source `calculer_similarite_genres`: Jaccard index of the two genre sets,
boosted by `1 + 0.15·|∩|` (capped at 1) when the intersection has more than
one member; `0` if either set is empty. -/
def calculer_similarite_genres (film1 film2 : Film) : ℚ :=
  if film1.genres.toFinset = ∅ ∨ film2.genres.toFinset = ∅ then 0
  else if (film1.genres.toFinset ∪ film2.genres.toFinset).card = 0 then 0
  else if 1 < (film1.genres.toFinset ∩ film2.genres.toFinset).card then
    min 1 ((((film1.genres.toFinset ∩ film2.genres.toFinset).card : ℚ) /
        ((film1.genres.toFinset ∪ film2.genres.toFinset).card : ℚ)) *
      (1 + 0.15 * ((film1.genres.toFinset ∩ film2.genres.toFinset).card : ℚ)))
  else ((film1.genres.toFinset ∩ film2.genres.toFinset).card : ℚ) /
    ((film1.genres.toFinset ∪ film2.genres.toFinset).card : ℚ)

/-- Source `calculer_similarite_annee`: 1 when the years are equal, else
`exp(-|Δ|/10)`; 0 when either year is absent (Python truthiness: year 0 is
also falsy). -/
noncomputable def calculer_similarite_annee (film1 film2 : Film) : ℝ :=
  match film1.annee, film2.annee with
  | some annee1, some annee2 =>
    if annee1 = 0 ∨ annee2 = 0 then 0
    else if |annee1 - annee2| = 0 then 1
    else Real.exp (-((|annee1 - annee2| : ℤ) : ℝ) / 10)
  | some _, none => 0
  | none, some _ => 0
  | none, none => 0

/-- Source `calculer_poids`: weighted combination (actors 0.3, director 0.4, genres
0.2, year 0.1) clamped to `[0,1]` by `max(0, min(1, ·))`. -/
noncomputable def calculer_poids (film1 film2 : Film) : ℝ :=
  max 0 (min 1
    ((calculer_similarite_acteurs film1 film2 : ℝ) * 0.3 +
     (calculer_similarite_realisateur film1 film2 : ℝ) * 0.4 +
     (calculer_similarite_genres film1 film2 : ℝ) * 0.2 +
     calculer_similarite_annee film1 film2 * 0.1))

theorem sim_acteurs_comm (a b : Film) :
    calculer_similarite_acteurs a b = calculer_similarite_acteurs b a := by
  unfold calculer_similarite_acteurs
  rw [Finset.inter_comm b.acteurs.toFinset, Finset.union_comm b.acteurs.toFinset]
  exact if_congr or_comm rfl rfl

theorem sim_realisateur_comm (a b : Film) :
    calculer_similarite_realisateur a b = calculer_similarite_realisateur b a := by
  unfold calculer_similarite_realisateur
  rcases h1 : truthyStr a.realisateur <;> rcases h2 : truthyStr b.realisateur <;>
    simp [h1, h2, eq_comm]

theorem sim_genres_comm (a b : Film) :
    calculer_similarite_genres a b = calculer_similarite_genres b a := by
  unfold calculer_similarite_genres
  rw [Finset.inter_comm b.genres.toFinset, Finset.union_comm b.genres.toFinset]
  exact if_congr or_comm rfl rfl

theorem sim_annee_comm (a b : Film) :
    calculer_similarite_annee a b = calculer_similarite_annee b a := by
  unfold calculer_similarite_annee
  rcases a.annee with _ | y1 <;> rcases b.annee with _ | y2 <;> dsimp only
  rw [abs_sub_comm y1 y2]
  exact if_congr or_comm rfl rfl

theorem poids_comm (a b : Film) : calculer_poids a b = calculer_poids b a := by
  unfold calculer_poids
  rw [sim_acteurs_comm, sim_realisateur_comm, sim_genres_comm, sim_annee_comm]

theorem poids_nonneg (a b : Film) : 0 ≤ calculer_poids a b :=
  le_max_left _ _

theorem poids_le_un (a b : Film) : calculer_poids a b ≤ 1 :=
  max_le (by norm_num) (min_le_left _ _)

/-- C1: the combined similarity weight is symmetric and lies in `[0,1]`.
(The model is purely functional, so freedom from side effects on the two
records is inherent in the embedding.) -/
theorem poids_symetrique_borne (a b : Film) :
    calculer_poids a b = calculer_poids b a ∧
      0 ≤ calculer_poids a b ∧ calculer_poids a b ≤ 1 :=
  ⟨poids_comm a b, poids_nonneg a b, poids_le_un a b⟩

/-! ### C3: the genre sub-score -/

/-- Number of common genres of two records (size of the set intersection). -/
def nbGenresCommuns (a b : Film) : ℕ :=
  (a.genres.toFinset ∩ b.genres.toFinset).card

/-- Jaccard index of the two genre sets. -/
def jaccardGenres (a b : Film) : ℚ :=
  (nbGenresCommuns a b : ℚ) / ((a.genres.toFinset ∪ b.genres.toFinset).card : ℚ)

/-- The genre sub-score as the claim words it: Jaccard index boosted by a
factor of 0.15 per extra common genre, i.e. per common genre beyond the
first, capped at 1.  This definition follows the claim's text, not the
source, and exists only to be compared with `calculer_similarite_genres`. -/
def similarite_genres_selon_enonce (a b : Film) : ℚ :=
  if a.genres.toFinset = ∅ ∨ b.genres.toFinset = ∅ then 0
  else if 1 < nbGenresCommuns a b then
    min 1 (jaccardGenres a b * (1 + 0.15 * ((nbGenresCommuns a b : ℚ) - 1)))
  else jaccardGenres a b

/-- Concrete record with genres {Action, Drame, Comedie}. -/
def filmG1 : Film := ⟨some "A", none, [], none, ["Action", "Drame", "Comedie"], none⟩

/-- Concrete record with genres {Action, Drame}. -/
def filmG2 : Film := ⟨some "B", none, [], none, ["Action", "Drame"], none⟩

/-- C3 counterexample: on two records with 2 common genres out of 3 total,
the code computes `min 1 ((2/3)·(1 + 0.15·2)) = 13/15`, while the claim's
formula (0.15 per common genre beyond the first) gives
`min 1 ((2/3)·(1 + 0.15·1)) = 23/30`.  Both genre sets are non-empty and the
intersection has more than one member, so the claim's premise holds. -/
theorem genres_contre_exemple :
    filmG1.genres.toFinset ≠ ∅ ∧ filmG2.genres.toFinset ≠ ∅ ∧
      1 < nbGenresCommuns filmG1 filmG2 ∧
      calculer_similarite_genres filmG1 filmG2 = 13 / 15 ∧
      similarite_genres_selon_enonce filmG1 filmG2 = 23 / 30 ∧
      calculer_similarite_genres filmG1 filmG2 ≠
        similarite_genres_selon_enonce filmG1 filmG2 := by
  have hint : (filmG1.genres.toFinset ∩ filmG2.genres.toFinset).card = 2 := by decide
  have huni : (filmG1.genres.toFinset ∪ filmG2.genres.toFinset).card = 3 := by decide
  have hcode : calculer_similarite_genres filmG1 filmG2 = 13 / 15 := by
    unfold calculer_similarite_genres
    rw [if_neg (by decide), if_neg (by decide), if_pos (by decide), hint, huni]
    norm_num
  have henonce : similarite_genres_selon_enonce filmG1 filmG2 = 23 / 30 := by
    unfold similarite_genres_selon_enonce jaccardGenres nbGenresCommuns
    rw [if_neg (by decide), if_pos (by decide), hint, huni]
    norm_num
  exact ⟨by decide, by decide, by decide, hcode, henonce, by rw [hcode, henonce]; norm_num⟩

/-- C3 amended: with both genre sets non-empty and more than one common
genre, the genre sub-score is the Jaccard index boosted by the factor
`1 + 0.15·(number of common genres)` — 0.15 per common genre, counting every
common genre and not only those beyond the first — capped at 1; and it is 0
whenever either genre set is empty. -/
theorem genres_boost_amende :
    (∀ a b : Film, a.genres.toFinset ≠ ∅ → b.genres.toFinset ≠ ∅ →
      1 < nbGenresCommuns a b →
      calculer_similarite_genres a b =
        min 1 (jaccardGenres a b * (1 + 0.15 * (nbGenresCommuns a b : ℚ)))) ∧
    (∀ a b : Film, a.genres.toFinset = ∅ ∨ b.genres.toFinset = ∅ →
      calculer_similarite_genres a b = 0) := by
  constructor
  · intro a b h1 h2 h3
    have h3' : 1 < (a.genres.toFinset ∩ b.genres.toFinset).card := h3
    have hu : ¬(a.genres.toFinset ∪ b.genres.toFinset).card = 0 := by
      intro hc
      rcases Finset.union_eq_empty.mp (Finset.card_eq_zero.mp hc) with ⟨ha, _⟩
      exact h1 ha
    unfold calculer_similarite_genres jaccardGenres nbGenresCommuns
    rw [if_neg (by tauto), if_neg hu, if_pos h3']
  · intro a b h
    unfold calculer_similarite_genres
    rw [if_pos h]

/-- Witness for the amended C3 at the concrete records `filmG1`, `filmG2`
and at an empty-genre record. -/
theorem genres_boost_amende_temoin :
    (filmG1.genres.toFinset ≠ ∅ ∧ filmG2.genres.toFinset ≠ ∅ ∧
      1 < nbGenresCommuns filmG1 filmG2 ∧
      calculer_similarite_genres filmG1 filmG2 =
        min 1 (jaccardGenres filmG1 filmG2 *
          (1 + 0.15 * (nbGenresCommuns filmG1 filmG2 : ℚ)))) ∧
    ((filmVide.genres.toFinset = ∅ ∨ filmG2.genres.toFinset = ∅) ∧
      calculer_similarite_genres filmVide filmG2 = 0) :=
  ⟨⟨by decide, by decide, by decide,
      genres_boost_amende.1 filmG1 filmG2 (by decide) (by decide) (by decide)⟩,
    ⟨Or.inl (by decide), genres_boost_amende.2 filmVide filmG2 (Or.inl (by decide))⟩⟩

/-! ### C2: the all-pairs edge builder -/

/-- The index pairs visited by the nested loops
`for i in range(n): for j in range(i+1, n)` (in visiting order). -/
def pairesIndices (n : ℕ) : List (ℕ × ℕ) :=
  (List.range n).flatMap fun i =>
    (List.range' (i + 1) (n - (i + 1))).map fun j => (i, j)

theorem mem_pairesIndices {n : ℕ} {p : ℕ × ℕ} :
    p ∈ pairesIndices n ↔ p.1 < p.2 ∧ p.2 < n := by
  rcases p with ⟨i, j⟩
  simp only [pairesIndices, List.mem_flatMap, List.mem_map, List.mem_range,
    List.mem_range'_1, Prod.mk.injEq]
  constructor
  · rintro ⟨a, ha, b, ⟨hb1, hb2⟩, rfl, rfl⟩
    omega
  · rintro ⟨h1, h2⟩
    exact ⟨i, by omega, j, ⟨by omega, by omega⟩, rfl, rfl⟩

theorem nodup_pairesIndices (n : ℕ) : (pairesIndices n).Nodup := by
  unfold pairesIndices
  rw [List.nodup_flatMap]
  constructor
  · intro i _
    exact (List.nodup_range' _ _).map fun a b h => by
      simpa using congrArg Prod.snd h
  · refine (List.nodup_range n).imp ?_
    intro a b hab p hpa hpb
    simp only [List.mem_map] at hpa hpb
    obtain ⟨x, _, rfl⟩ := hpa
    obtain ⟨y, _, hy⟩ := hpb
    exact hab (congrArg Prod.fst hy).symm

theorem somme_liste_range (g : ℕ → ℕ) (m : ℕ) :
    ((List.range m).map g).sum = ∑ i ∈ Finset.range m, g i := by
  induction m with
  | zero => simp
  | succ k ih =>
    rw [List.range_succ, List.map_append, List.sum_append, Finset.sum_range_succ, ih]
    simp

theorem length_pairesIndices (n : ℕ) : (pairesIndices n).length = n * (n - 1) / 2 := by
  have h1 : (pairesIndices n).length = ((List.range n).map fun i => n - (i + 1)).sum := by
    simp [pairesIndices, List.flatMap, Function.comp_def]
  rw [h1, somme_liste_range]
  have h2 : ∑ i ∈ Finset.range n, (n - (i + 1)) = ∑ i ∈ Finset.range n, (n - 1 - i) :=
    Finset.sum_congr rfl fun i _ => by omega
  rw [h2, Finset.sum_range_reflect (fun i => i) n, Finset.sum_range_id]

/-- An edge dict `{from, to, weight}` of the Python graph (`from`/`to` are
Lean keywords, hence `fromIdx`/`toIdx`).  The weight, rounded to 4 decimal
places by the builder, is an exact rational. -/
structure Arete where
  fromIdx : ℕ
  toIdx : ℕ
  weight : ℚ
deriving DecidableEq

/-- Python's `round(x, 4)` on the real idealisation: nearest multiple of
`10⁻⁴` (ties idealised to round-half-up; the source never hits an exact
tie on its double-precision inputs). -/
noncomputable def arrondir4 (x : ℝ) : ℚ :=
  ((round (x * 10000) : ℤ) : ℚ) / 10000

/-- Source `calculer_toutes_aretes`: one edge per index pair `i < j`, with weight
`round(calculer_poids(films[i], films[j]), 4)`. -/
noncomputable def calculer_toutes_aretes (films_data : List Film) : List Arete :=
  (pairesIndices films_data.length).map fun p =>
    ⟨p.1, p.2,
      arrondir4 (calculer_poids (films_data.getD p.1 filmVide) (films_data.getD p.2 filmVide))⟩

theorem round_mono_r {x y : ℝ} (h : x ≤ y) : round x ≤ round y := by
  rw [round_eq, round_eq]
  exact Int.floor_mono (by linarith)

theorem arrondir4_borne {x : ℝ} (h0 : 0 ≤ x) (h1 : x ≤ 1) :
    0 ≤ arrondir4 x ∧ arrondir4 x ≤ 1 := by
  have hl : (0 : ℤ) ≤ round (x * 10000) := by
    have h := round_mono_r (by linarith : (0 : ℝ) ≤ x * 10000)
    simpa using h
  have hr : round (x * 10000) ≤ 10000 := by
    have h := round_mono_r (by linarith : x * 10000 ≤ (10000 : ℝ))
    simpa using h
  unfold arrondir4
  constructor
  · exact div_nonneg (by exact_mod_cast hl) (by norm_num)
  · rw [div_le_one (by norm_num)]
    exact_mod_cast hr

/-- C2: the builder emits exactly one edge per unordered index pair
`i < j < N` — so `N·(N-1)/2` edges, each with `from < to < N`, no duplicate
pair — and each weight is the pair's similarity score rounded to 4 decimal
places, lying in `[0,1]`. -/
theorem toutes_aretes_structure (films_data : List Film) :
    (calculer_toutes_aretes films_data).length =
        films_data.length * (films_data.length - 1) / 2 ∧
    (∀ a ∈ calculer_toutes_aretes films_data,
      a.fromIdx < a.toIdx ∧ a.toIdx < films_data.length ∧
      a.weight = arrondir4 (calculer_poids (films_data.getD a.fromIdx filmVide)
        (films_data.getD a.toIdx filmVide)) ∧
      0 ≤ a.weight ∧ a.weight ≤ 1) ∧
    ((calculer_toutes_aretes films_data).map fun a => (a.fromIdx, a.toIdx)).Nodup ∧
    (∀ i j : ℕ, i < j → j < films_data.length →
      (i, j) ∈ (calculer_toutes_aretes films_data).map fun a => (a.fromIdx, a.toIdx)) := by
  have hmap : ((calculer_toutes_aretes films_data).map fun a => (a.fromIdx, a.toIdx)) =
      pairesIndices films_data.length := by
    rw [calculer_toutes_aretes, List.map_map]
    have h : ∀ l : List (ℕ × ℕ), (l.map fun p => (p.1, p.2)) = l := fun l => by simp
    exact h _
  refine ⟨?_, ?_, ?_, ?_⟩
  · rw [calculer_toutes_aretes, List.length_map, length_pairesIndices]
  · intro a ha
    rw [calculer_toutes_aretes, List.mem_map] at ha
    obtain ⟨p, hp, rfl⟩ := ha
    obtain ⟨h1, h2⟩ := mem_pairesIndices.mp hp
    have hb := arrondir4_borne (poids_nonneg (films_data.getD p.1 filmVide)
      (films_data.getD p.2 filmVide)) (poids_le_un _ _)
    exact ⟨h1, h2, rfl, hb.1, hb.2⟩
  · rw [hmap]
    exact nodup_pairesIndices _
  · intro i j hij hjn
    rw [hmap]
    exact mem_pairesIndices.mpr ⟨hij, hjn⟩

/-- Witness for C2 on a concrete two-record list. -/
theorem toutes_aretes_structure_temoin :
    (0 : ℕ) < 1 ∧ 1 < ([filmG1, filmG2] : List Film).length ∧
      (0, 1) ∈ ((calculer_toutes_aretes [filmG1, filmG2]).map fun a => (a.fromIdx, a.toIdx)) :=
  ⟨by decide, by decide,
    (toutes_aretes_structure [filmG1, filmG2]).2.2.2 0 1 (by decide) (by decide)⟩

/-! ### C5: threshold filtering -/

/-- Default weight threshold (`SEUIL_POIDS` of filtrageGraphe.py). -/
def SEUIL_POIDS : ℚ := 0.5

/-- Source `filtrer_aretes`: keep exactly the edges whose weight is ≥ the threshold. -/
def filtrer_aretes (aretes : List Arete) (seuil : ℚ) : List Arete :=
  aretes.filter fun a => decide (seuil ≤ a.weight)

/-- C5: the filter returns exactly the edges of weight ≥ threshold, as an
order-preserving sublist, and is antitone in the threshold: raising the
threshold can only shrink the result. -/
theorem filtrer_aretes_correct (aretes : List Arete) (seuil t1 t2 : ℚ) (h : t1 ≤ t2) :
    (filtrer_aretes aretes seuil).Sublist aretes ∧
    (∀ a, a ∈ filtrer_aretes aretes seuil ↔ a ∈ aretes ∧ seuil ≤ a.weight) ∧
    (∀ a ∈ filtrer_aretes aretes t2, a ∈ filtrer_aretes aretes t1) := by
  refine ⟨List.filter_sublist _, fun a => ?_, fun a ha => ?_⟩
  · rw [filtrer_aretes, List.mem_filter, decide_eq_true_eq]
  · rw [filtrer_aretes, List.mem_filter, decide_eq_true_eq] at ha ⊢
    exact ⟨ha.1, le_trans h ha.2⟩

/-- Concrete edge 0—1 with weight 0.8. -/
def areteT1 : Arete := ⟨0, 1, 0.8⟩

/-- Concrete edge 0—2 with weight 0.2. -/
def areteT2 : Arete := ⟨0, 2, 0.2⟩

/-- Witness for C5 on two concrete edges and thresholds 0.3 ≤ 0.5. -/
theorem filtrer_aretes_correct_temoin :
    (0.3 : ℚ) ≤ 0.5 ∧
      ((filtrer_aretes [areteT1, areteT2] 0.5).Sublist [areteT1, areteT2] ∧
       (∀ a, a ∈ filtrer_aretes [areteT1, areteT2] 0.5 ↔
         a ∈ [areteT1, areteT2] ∧ (0.5 : ℚ) ≤ a.weight) ∧
       (∀ a ∈ filtrer_aretes [areteT1, areteT2] 0.5,
         a ∈ filtrer_aretes [areteT1, areteT2] 0.3)) :=
  ⟨by norm_num, filtrer_aretes_correct [areteT1, areteT2] 0.5 0.3 0.5 (by norm_num)⟩

/-! ### C7: the force-directed 3D layout -/

/-- A 3D position `{x, y, z}`. -/
structure Pos3 where
  x : ℝ
  y : ℝ
  z : ℝ

/-- The origin position (also the default for out-of-range reads). -/
noncomputable def origine : Pos3 := ⟨0, 0, 0⟩

/-- The distance expression used as every division denominator of the
simulation: `sqrt(dx²+dy²+dz²) + 0.1` («Éviter division par zéro»). -/
noncomputable def distPlus (dx dy dz : ℝ) : ℝ :=
  Real.sqrt (dx * dx + dy * dy + dz * dz) + 0.1

/-- One repulsion update (inner body of the pairwise loop): displaces the
force entries of nodes `p.1` and `p.2` by `±(d/dist)·(k²/dist)` per axis. -/
noncomputable def appliquerForcePaire (k : ℝ) (positions : List Pos3)
    (forces : List Pos3) (p : ℕ × ℕ) : List Pos3 :=
  let pi := positions.getD p.1 origine
  let pj := positions.getD p.2 origine
  let dx := pi.x - pj.x
  let dy := pi.y - pj.y
  let dz := pi.z - pj.z
  let dist := distPlus dx dy dz
  let force := k * k / dist
  let fx := dx / dist * force
  let fy := dy / dist * force
  let fz := dz / dist * force
  let fi := forces.getD p.1 origine
  let forces1 := forces.set p.1 ⟨fi.x + fx, fi.y + fy, fi.z + fz⟩
  let fj := forces1.getD p.2 origine
  forces1.set p.2 ⟨fj.x - fx, fj.y - fy, fj.z - fz⟩

/-- All pairwise repulsions of one iteration. -/
noncomputable def appliquerRepulsions (k : ℝ) (positions : List Pos3)
    (forces : List Pos3) : List Pos3 :=
  (pairesIndices positions.length).foldl (appliquerForcePaire k positions) forces

/-- One attraction update along an edge: displaces the force entries of the
edge's endpoints by `±(d/dist)·(dist·w·0.1)` per axis. -/
noncomputable def appliquerAttraction (positions : List Pos3)
    (forces : List Pos3) (arete : Arete) : List Pos3 :=
  let pi := positions.getD arete.fromIdx origine
  let pj := positions.getD arete.toIdx origine
  let dx := pj.x - pi.x
  let dy := pj.y - pi.y
  let dz := pj.z - pi.z
  let dist := distPlus dx dy dz
  let force := dist * (arete.weight : ℝ) * 0.1
  let fx := dx / dist * force
  let fy := dy / dist * force
  let fz := dz / dist * force
  let fi := forces.getD arete.fromIdx origine
  let forces1 := forces.set arete.fromIdx ⟨fi.x + fx, fi.y + fy, fi.z + fz⟩
  let fj := forces1.getD arete.toIdx origine
  forces1.set arete.toIdx ⟨fj.x - fx, fj.y - fy, fj.z - fz⟩

/-- All edge attractions of one iteration. -/
noncomputable def appliquerAttractions (positions : List Pos3)
    (forces : List Pos3) (aretes : List Arete) : List Pos3 :=
  aretes.foldl (appliquerAttraction positions) forces

/-- One iteration: zero the forces, accumulate repulsions then attractions,
then move every node by `force × 0.8` (damping). -/
noncomputable def iterationLayout (k : ℝ) (aretes : List Arete)
    (positions : List Pos3) : List Pos3 :=
  let forces := List.replicate positions.length origine
  let forces1 := appliquerRepulsions k positions forces
  let forces2 := appliquerAttractions positions forces1 aretes
  List.zipWith (fun p f => (⟨p.x + f.x * 0.8, p.y + f.y * 0.8, p.z + f.z * 0.8⟩ : Pos3))
    positions forces2

/-- The fixed-count iteration loop (`for iteration in range(iterations)`). -/
noncomputable def bouclerIterations (k : ℝ) (aretes : List Arete) :
    ℕ → List Pos3 → List Pos3
  | 0, positions => positions
  | n + 1, positions => bouclerIterations k aretes n (iterationLayout k aretes positions)

/-- Initial position on a spherical shell from one random sample
`(angle1, angle2, radius)`. -/
noncomputable def positionInitiale (ech : ℝ × ℝ × ℝ) : Pos3 :=
  ⟨ech.2.2 * Real.sin ech.2.1 * Real.cos ech.1,
   ech.2.2 * Real.sin ech.2.1 * Real.sin ech.1,
   ech.2.2 * Real.cos ech.2.1⟩

/-- Source `calculer_layout_simple` of filtrageGraphe.py.  The process-wide random
generator is modelled by the sample stream `ech` (one `(angle1, angle2,
radius)` triple per node); everything after initialisation is deterministic.
Runs 50 iterations with repulsion constant `k = sqrt(15·15/n)`. -/
noncomputable def calculer_layout_simple (films_data : List Film)
    (aretes : List Arete) (ech : ℕ → ℝ × ℝ × ℝ) : List Pos3 :=
  if films_data.length = 0 then []
  else
    bouclerIterations (Real.sqrt ((15 * 15) / films_data.length)) aretes 50
      ((List.range films_data.length).map fun i => positionInitiale (ech i))

theorem length_foldl_fixe {β : Type} (step : List Pos3 → β → List Pos3)
    (h : ∀ acc b, (step acc b).length = acc.length) :
    ∀ (l : List β) (init : List Pos3), (l.foldl step init).length = init.length := by
  intro l
  induction l with
  | nil => intro init; rfl
  | cons b t ih => intro init; rw [List.foldl_cons, ih, h]

theorem length_appliquerForcePaire (k : ℝ) (positions forces : List Pos3) (p : ℕ × ℕ) :
    (appliquerForcePaire k positions forces p).length = forces.length := by
  simp [appliquerForcePaire]

theorem length_appliquerAttraction (positions forces : List Pos3) (a : Arete) :
    (appliquerAttraction positions forces a).length = forces.length := by
  simp [appliquerAttraction]

theorem length_iterationLayout (k : ℝ) (aretes : List Arete) (positions : List Pos3) :
    (iterationLayout k aretes positions).length = positions.length := by
  unfold iterationLayout
  rw [List.length_zipWith, appliquerAttractions,
    length_foldl_fixe _ (fun acc b => length_appliquerAttraction positions acc b),
    appliquerRepulsions,
    length_foldl_fixe _ (fun acc b => length_appliquerForcePaire k positions acc b),
    List.length_replicate]
  exact Nat.min_self _

theorem length_bouclerIterations (k : ℝ) (aretes : List Arete) :
    ∀ (n : ℕ) (positions : List Pos3),
      (bouclerIterations k aretes n positions).length = positions.length := by
  intro n
  induction n with
  | zero => intro positions; rfl
  | succ m ih => intro positions; rw [bouclerIterations, ih, length_iterationLayout]

theorem distPlus_minoree (dx dy dz : ℝ) : 0.1 ≤ distPlus dx dy dz := by
  unfold distPlus
  have h := Real.sqrt_nonneg (dx * dx + dy * dy + dz * dz)
  linarith

/-- C7: for any node count N ≥ 1 and any edge set with valid endpoints, the
layout returns exactly N positions (all real, hence finite in the exact
idealisation), and every division denominator of the simulation is the
floored distance `sqrt(...)+0.1`, which is bounded below by 0.1, so no
division by zero can occur. -/
theorem layout_longueur_et_denominateurs (films_data : List Film)
    (aretes : List Arete) (ech : ℕ → ℝ × ℝ × ℝ)
    (hN : 1 ≤ films_data.length)
    (_hA : ∀ a ∈ aretes, a.fromIdx < a.toIdx ∧ a.toIdx < films_data.length) :
    (calculer_layout_simple films_data aretes ech).length = films_data.length ∧
      ∀ dx dy dz : ℝ, 0.1 ≤ distPlus dx dy dz := by
  constructor
  · unfold calculer_layout_simple
    rw [if_neg (by omega), length_bouclerIterations, List.length_map, List.length_range]
  · exact distPlus_minoree

/-- Witness for C7: one node, no edge, a constant sample stream. -/
theorem layout_longueur_et_denominateurs_temoin :
    1 ≤ ([filmVide] : List Film).length ∧
      ((calculer_layout_simple [filmVide] [] fun _ => (0, 0, 5)).length =
          ([filmVide] : List Film).length ∧
        ∀ dx dy dz : ℝ, 0.1 ≤ distPlus dx dy dz) :=
  ⟨by decide,
    layout_longueur_et_denominateurs [filmVide] [] (fun _ => (0, 0, 5)) (by decide)
      (by intro a ha; cases ha)⟩

/-! ### The recommendation engine (algorithmeRecommandation.py) -/

/-- Python `str.split()` on a character list: the maximal non-whitespace
runs, in order (`acc` is the current run, reversed). -/
def decouperMots : List Char → List Char → List (List Char)
  | [], acc => if acc.isEmpty then [] else [acc.reverse]
  | c :: t, acc =>
    if c.isWhitespace then
      if acc.isEmpty then decouperMots t [] else acc.reverse :: decouperMots t []
    else decouperMots t (c :: acc)

/-- Python `" ".join(mots)`. -/
def joindreEspaces : List (List Char) → List Char
  | [] => []
  | [m] => m
  | m :: t => m ++ ' ' :: joindreEspaces t

/-- Python `str.strip()`: drop leading and trailing whitespace. -/
def retirerEspacesBords (cs : List Char) : List Char :=
  ((cs.dropWhile Char.isWhitespace).reverse.dropWhile Char.isWhitespace).reverse

/-- Python `" ".join(s.split())`: collapse whitespace runs. -/
def normaliserBlancs (cs : List Char) : List Char :=
  joindreEspaces (decouperMots cs [])

/-- True when the six characters are a parenthesized 4-digit year `(dddd)`. -/
def finAnneeParenthesee (cs : List Char) : Bool :=
  match cs with
  | ['(', d1, d2, d3, d4, ')'] => d1.isDigit && d2.isDigit && d3.isDigit && d4.isDigit
  | _ => false

/-- The effect of `re.sub(r"\s*\(\d{4}\)\s*$", "", t)` on an
already-stripped character list: remove a trailing `(dddd)` together with
the whitespace run before it, once, if present. -/
def retirerAnneeFinale (cs : List Char) : List Char :=
  if finAnneeParenthesee (cs.drop (cs.length - 6)) then
    ((cs.take (cs.length - 6)).reverse.dropWhile Char.isWhitespace).reverse
  else cs

/-- Source `_normaliser_titre_reco`: strip, drop a trailing parenthesized 4-digit
year, uppercase, collapse whitespace.  The Python guard
`not titre or not isinstance(titre, str)` returns `""`; at its only call
site the argument is already a (possibly empty) string. -/
def _normaliser_titre_reco (titre : String) : String :=
  if titre = "" then ""
  else
    String.mk (normaliserBlancs
      ((retirerAnneeFinale (retirerEspacesBords titre.data)).map Char.toUpper))

/-- The falsy-or chain `film.get("titre") or film.get("titre_original") or ""`
selecting the string handed to `_normaliser_titre_reco`. -/
def titrePourDedup (film : Film) : String :=
  match film.titre with
  | some t => if t = "" then (film.titre_original.getD "") else t
  | none => film.titre_original.getD ""

/-- Normalized dedup key of a record. -/
def tnFilm (film : Film) : String :=
  _normaliser_titre_reco (titrePourDedup film)

/-- The per-candidate dict produced by `calculer_scores_recommandation`
(and extended with `degre` by `penaliser_films_populaires`). -/
structure EntreeScore where
  idx : ℕ
  score : ℚ
  score_total : ℚ
  nb_connexions : ℕ
  degre : Option ℕ
deriving DecidableEq

/-- Increment of an insertion-ordered dict of rationals with a parallel
connection counter: models the simultaneous
`scores[k] += w; nombre_connexions[k] += 1` on two defaultdicts (both
always touched together, hence one association list). -/
def majScores : List (ℕ × ℚ × ℕ) → ℕ → ℚ → List (ℕ × ℚ × ℕ)
  | [], k, w => [(k, w, 1)]
  | e :: t, k, w =>
    if e.1 = k then (e.1, e.2.1 + w, e.2.2 + 1) :: t else e :: majScores t k w

/-- The edge loop of `calculer_scores_recommandation`: accumulate weight and
connection count onto the unknown endpoint of every known↔unknown edge. -/
def accumulerScores (aretes : List Arete) (indices_connus : Finset ℕ) : List (ℕ × ℚ × ℕ) :=
  aretes.foldl
    (fun acc a =>
      if a.fromIdx ∈ indices_connus ∧ a.toIdx ∉ indices_connus then
        majScores acc a.toIdx a.weight
      else if a.toIdx ∈ indices_connus ∧ a.fromIdx ∉ indices_connus then
        majScores acc a.fromIdx a.weight
      else acc)
    []

/-- Source `calculer_scores_recommandation`: `{}` when there is no known movie,
else one entry per connected unknown node with
`score = accumulated / max(1, connections)`.  (`films_data` is unused, as in
the source.) -/
def calculer_scores_recommandation (films_data : List Film) (aretes : List Arete)
    (indices_connus : Finset ℕ) : List EntreeScore :=
  let _ := films_data
  let scores := accumulerScores aretes indices_connus
  if indices_connus.card = 0 then []
  else scores.map fun e => ⟨e.1, e.2.1 / ((max 1 e.2.2 : ℕ) : ℚ), e.2.1, e.2.2, none⟩

/-- Increment of the insertion-ordered degree dict
(`degres[k] += 1` on a defaultdict). -/
def majDegre : List (ℕ × ℕ) → ℕ → List (ℕ × ℕ)
  | [], k => [(k, 1)]
  | e :: t, k => if e.1 = k then (e.1, e.2 + 1) :: t else e :: majDegre t k

/-- The degree dict of `penaliser_films_populaires`: both endpoints of every
edge are counted, over the full edge list. -/
def calculerDegres (aretes : List Arete) : List (ℕ × ℕ) :=
  aretes.foldl (fun d a => majDegre (majDegre d a.fromIdx) a.toIdx) []

/-- Dict lookup with default 0 (`degres.get(idx, 0)`). -/
def chercherVal : List (ℕ × ℕ) → ℕ → ℕ
  | [], _ => 0
  | e :: t, k => if e.1 = k then e.2 else chercherVal t k

/-- Source `penaliser_films_populaires`: multiply the score of every candidate
whose degree exceeds the mean degree by
`1 - (degre - moyen)/moyen · facteur`; others keep their score.  Returns the
scores unchanged when the edge list is empty. -/
def penaliser_films_populaires (scores : List EntreeScore) (aretes : List Arete)
    (facteur_penalite : ℚ) : List EntreeScore :=
  let degres := calculerDegres aretes
  if degres.isEmpty then scores
  else
    let degre_moyen : ℚ := (((degres.map Prod.snd).sum : ℕ) : ℚ) / ((degres.length : ℕ) : ℚ)
    scores.map fun e =>
      let degre := chercherVal degres e.idx
      if degre_moyen < (degre : ℚ) then
        ⟨e.idx, e.score * (1 - ((degre : ℚ) - degre_moyen) / degre_moyen * facteur_penalite),
          e.score_total, e.nb_connexions, some degre⟩
      else ⟨e.idx, e.score, e.score_total, e.nb_connexions, some degre⟩

/-- The title normalisation local to `identifier_films_connus`:
uppercase and collapse whitespace (`" ".join(value.upper().split())`). -/
def normalizeMaj (value : String) : String :=
  String.mk (normaliserBlancs (value.data.map Char.toUpper))

/-- Source `identifier_films_connus`: indices whose (normalized) display or
original title matches a known title exactly. -/
def identifier_films_connus (films_data : List Film) (titres_connus : Finset String) :
    Finset ℕ :=
  (Finset.range films_data.length).filter fun i =>
    normalizeMaj ((films_data.getD i filmVide).titre.getD "") ∈
        titres_connus.image normalizeMaj ∨
      normalizeMaj ((films_data.getD i filmVide).titre_original.getD "") ∈
        titres_connus.image normalizeMaj

/-- One ranked recommendation `(index, score, film)`. -/
structure Reco where
  idx : ℕ
  score : ℚ
  film : Film
deriving DecidableEq

/-- Normalized dedup key of a ranked candidate. -/
def tnReco (r : Reco) : String := tnFilm r.film

/-- The candidate list built before sorting: every scored index not in the
known set, paired with its score and record. -/
def construireRecommandations (films_data : List Film) (scores : List EntreeScore)
    (indices_connus : Finset ℕ) : List Reco :=
  (scores.filter fun e => decide (e.idx ∉ indices_connus)).map fun e =>
    ⟨e.idx, e.score, films_data.getD e.idx filmVide⟩

/-- Descending-score comparison used by the stable sort
(`sort(key=..., reverse=True)`). -/
def ordreScoreDec (a b : Reco) : Bool := decide (b.score ≤ a.score)

/-- Stable descending sort of the candidates. -/
def trierParScore (l : List Reco) : List Reco := l.mergeSort ordreScoreDec

/-- The dedup walk: drop a candidate whose non-empty normalized title was
already seen; an empty normalized title is never recorded nor dropped. -/
def dedupAux (vus : List String) : List Reco → List Reco
  | [] => []
  | item :: rest =>
    if tnReco item ≠ "" ∧ tnReco item ∈ vus then dedupAux vus rest
    else if tnReco item ≠ "" then item :: dedupAux (tnReco item :: vus) rest
    else item :: dedupAux vus rest

/-- Deduplication of the ranked list (`vus = set()` initially). -/
def dedupliquer (l : List Reco) : List Reco := dedupAux [] l

/-- Resolution of the known-index set in `recommander`: the first
`nb_films_saisis` indices when that count is given and positive, else title
matching when the known-title set is non-empty, else the empty set (on which
the caller immediately returns `[]`).  The `titres_connus is None` branch
(loading data/listeFilms.txt) is file I/O owned by an excluded collaborator
and is not modelled; callers here always pass the set. -/
def indicesConnusDe (films_data : List Film) (titres_connus : Finset String)
    (nb_films_saisis : Option ℕ) : Finset ℕ :=
  if 0 < nb_films_saisis.getD 0 then
    Finset.range (min (nb_films_saisis.getD 0) films_data.length)
  else if titres_connus.Nonempty then identifier_films_connus films_data titres_connus
  else ∅

/-- Source `recommander` up to (and including) the descending sort: empty on the
degenerate branches, otherwise the sorted candidate list with the optional
popularity penalty applied. -/
def recommandationsClassees (films_data : List Film) (aretes : List Arete)
    (titres_connus : Finset String) (penaliser_populaires : Bool)
    (nb_films_saisis : Option ℕ) : List Reco :=
  let indices_connus := indicesConnusDe films_data titres_connus nb_films_saisis
  if indices_connus = ∅ then []
  else
    let scores := calculer_scores_recommandation films_data aretes indices_connus
    if scores.isEmpty then []
    else
      let scores2 :=
        if penaliser_populaires then penaliser_films_populaires scores aretes 0.1 else scores
      trierParScore (construireRecommandations films_data scores2 indices_connus)

/-- Source `recommander`: rank, deduplicate, and truncate to `top_n`. -/
def recommander (films_data : List Film) (aretes : List Arete)
    (titres_connus : Finset String) (top_n : ℕ) (penaliser_populaires : Bool)
    (nb_films_saisis : Option ℕ) : List Reco :=
  (dedupliquer
    (recommandationsClassees films_data aretes titres_connus penaliser_populaires
      nb_films_saisis)).take top_n

/-! ### C6: empty inputs -/

/-- C6: an empty record list, an empty edge list, or an empty known-title
set (with no positional count) each make `recommander` return the empty
list.  In this purely functional model no exception exists and no score
entry is produced on these paths. -/
theorem recommander_entrees_vides :
    (∀ (aretes : List Arete) (titres : Finset String) (top_n : ℕ) (pen : Bool)
        (nb : Option ℕ), recommander [] aretes titres top_n pen nb = []) ∧
    (∀ (films : List Film) (titres : Finset String) (top_n : ℕ) (pen : Bool)
        (nb : Option ℕ), recommander films [] titres top_n pen nb = []) ∧
    (∀ (films : List Film) (aretes : List Arete) (top_n : ℕ) (pen : Bool),
      recommander films aretes ∅ top_n pen none = []) := by
  refine ⟨?_, ?_, ?_⟩
  · intro aretes titres top_n pen nb
    have hidx : indicesConnusDe [] titres nb = ∅ := by
      unfold indicesConnusDe identifier_films_connus
      split_ifs <;> simp
    simp [recommander, recommandationsClassees, hidx, dedupliquer, dedupAux]
  · intro films titres top_n pen nb
    have hsc : ∀ idx : Finset ℕ, calculer_scores_recommandation films [] idx = [] := by
      intro idx
      unfold calculer_scores_recommandation accumulerScores
      simp
    simp [recommander, recommandationsClassees, hsc, dedupliquer, dedupAux]
  · intro films aretes top_n pen
    simp [recommander, recommandationsClassees, indicesConnusDe, dedupliquer, dedupAux,
      Finset.not_nonempty_empty]

/-! ### C4: the popularity penalty -/

/-- Number of edges of the full edge list touching node `i`. -/
def nbAretesTouchant (aretes : List Arete) (i : ℕ) : ℕ :=
  (aretes.filter fun a => a.fromIdx == i || a.toIdx == i).length

/-- The set of nodes touched by at least one edge. -/
def sommetsTouches (aretes : List Arete) : Finset ℕ :=
  ((aretes.map fun a => a.fromIdx) ++ aretes.map fun a => a.toIdx).toFinset

/-- Endpoint occurrences of `j` counted with multiplicity (a self-loop
would count twice, exactly as the two defaultdict increments do). -/
def touchesAretes (aretes : List Arete) (j : ℕ) : ℕ :=
  (aretes.map fun a =>
    (if j = a.fromIdx then 1 else 0) + (if j = a.toIdx then 1 else 0)).sum

theorem chercherVal_majDegre (l : List (ℕ × ℕ)) (k j : ℕ) :
    chercherVal (majDegre l k) j = chercherVal l j + if j = k then 1 else 0 := by
  induction l with
  | nil => simp [majDegre, chercherVal, eq_comm]
  | cons e t ih =>
    simp only [majDegre]
    by_cases hek : e.1 = k
    · rw [if_pos hek]
      by_cases hej : e.1 = j
      · simp [chercherVal, hej, hej ▸ hek]
      · have hjk : ¬j = k := fun h => hej (by rw [hek, ← h])
        simp [chercherVal, hej, hjk]
    · rw [if_neg hek]
      by_cases hej : e.1 = j
      · have : ¬j = k := fun h => hek (h ▸ hej)
        simp [chercherVal, hej, this]
      · simp [chercherVal, hej, ih]

theorem cles_majDegre (l : List (ℕ × ℕ)) (k : ℕ) :
    (majDegre l k).map Prod.fst =
      if k ∈ l.map Prod.fst then l.map Prod.fst else l.map Prod.fst ++ [k] := by
  induction l with
  | nil => simp [majDegre]
  | cons e t ih =>
    simp only [majDegre]
    by_cases hek : e.1 = k
    · rw [if_pos hek]
      simp [hek]
    · rw [if_neg hek]
      simp only [List.map_cons, List.mem_cons, ih]
      by_cases hk : k ∈ t.map Prod.fst
      · simp [hk, hek]
      · have hke : ¬k = e.1 := fun h => hek h.symm
        simp [hk, hke]

theorem somme_majDegre (l : List (ℕ × ℕ)) (k : ℕ) :
    ((majDegre l k).map Prod.snd).sum = (l.map Prod.snd).sum + 1 := by
  induction l with
  | nil => simp [majDegre]
  | cons e t ih =>
    simp only [majDegre]
    by_cases hek : e.1 = k
    · simp only [if_pos hek, List.map_cons, List.sum_cons]
      omega
    · simp only [if_neg hek, List.map_cons, List.sum_cons, ih]
      omega

theorem clesFinset_majDegre (l : List (ℕ × ℕ)) (k : ℕ) :
    ((majDegre l k).map Prod.fst).toFinset = insert k (l.map Prod.fst).toFinset := by
  rw [cles_majDegre]
  split_ifs with h
  · rw [Finset.insert_eq_self.mpr (List.mem_toFinset.mpr h)]
  · simp [Finset.insert_eq, Finset.union_comm]

theorem nodup_cles_majDegre (l : List (ℕ × ℕ)) (k : ℕ)
    (h : (l.map Prod.fst).Nodup) : ((majDegre l k).map Prod.fst).Nodup := by
  rw [cles_majDegre]
  split_ifs with hk
  · exact h
  · rw [List.nodup_append]
    refine ⟨h, List.nodup_singleton k, ?_⟩
    intro a ha hb
    rw [List.mem_singleton] at hb
    exact hk (hb ▸ ha)

theorem chercherVal_foldl_degres (aretes : List Arete) :
    ∀ (d : List (ℕ × ℕ)) (j : ℕ),
      chercherVal (aretes.foldl (fun d a => majDegre (majDegre d a.fromIdx) a.toIdx) d) j =
        chercherVal d j + touchesAretes aretes j := by
  induction aretes with
  | nil => intro d j; simp [touchesAretes]
  | cons a t ih =>
    intro d j
    rw [List.foldl_cons, ih, chercherVal_majDegre, chercherVal_majDegre]
    simp only [touchesAretes, List.map_cons, List.sum_cons]
    omega

theorem somme_foldl_degres (aretes : List Arete) :
    ∀ d : List (ℕ × ℕ),
      ((aretes.foldl (fun d a => majDegre (majDegre d a.fromIdx) a.toIdx) d).map
        Prod.snd).sum = (d.map Prod.snd).sum + 2 * aretes.length := by
  induction aretes with
  | nil => intro d; simp
  | cons a t ih =>
    intro d
    rw [List.foldl_cons, ih, somme_majDegre, somme_majDegre, List.length_cons]
    omega

theorem clesFinset_foldl_degres (aretes : List Arete) :
    ∀ d : List (ℕ × ℕ),
      (((aretes.foldl (fun d a => majDegre (majDegre d a.fromIdx) a.toIdx) d).map
          Prod.fst).toFinset : Finset ℕ) =
        (d.map Prod.fst).toFinset ∪ sommetsTouches aretes := by
  induction aretes with
  | nil => intro d; simp [sommetsTouches]
  | cons a t ih =>
    intro d
    rw [List.foldl_cons, ih, clesFinset_majDegre, clesFinset_majDegre]
    ext j
    simp only [sommetsTouches, Finset.mem_union, List.mem_toFinset, Finset.mem_insert,
      List.mem_append, List.mem_map, List.mem_cons]
    constructor
    · rintro (h | h)
      · rcases h with (rfl | rfl | h)
        · exact Or.inr (Or.inr ⟨a, Or.inl rfl, rfl⟩)
        · exact Or.inr (Or.inl ⟨a, Or.inl rfl, rfl⟩)
        · exact Or.inl h
      · rcases h with (⟨x, hx, rfl⟩ | ⟨x, hx, rfl⟩)
        · exact Or.inr (Or.inl ⟨x, Or.inr hx, rfl⟩)
        · exact Or.inr (Or.inr ⟨x, Or.inr hx, rfl⟩)
    · rintro (h | h)
      · exact Or.inl (Or.inr (Or.inr h))
      · rcases h with (⟨x, hx, rfl⟩ | ⟨x, hx, rfl⟩)
        · rcases hx with (rfl | hx)
          · exact Or.inl (Or.inr (Or.inl rfl))
          · exact Or.inr (Or.inl ⟨x, hx, rfl⟩)
        · rcases hx with (rfl | hx)
          · exact Or.inl (Or.inl rfl)
          · exact Or.inr (Or.inr ⟨x, hx, rfl⟩)

theorem nodup_cles_foldl_degres (aretes : List Arete) :
    ∀ d : List (ℕ × ℕ), (d.map Prod.fst).Nodup →
      ((aretes.foldl (fun d a => majDegre (majDegre d a.fromIdx) a.toIdx) d).map
        Prod.fst).Nodup := by
  induction aretes with
  | nil => intro d h; exact h
  | cons a t ih =>
    intro d h
    exact ih _ (nodup_cles_majDegre _ _ (nodup_cles_majDegre _ _ h))

theorem chercherVal_calculerDegres (aretes : List Arete) (j : ℕ) :
    chercherVal (calculerDegres aretes) j = touchesAretes aretes j := by
  have h := chercherVal_foldl_degres aretes [] j
  simpa [calculerDegres, chercherVal] using h

theorem somme_calculerDegres (aretes : List Arete) :
    ((calculerDegres aretes).map Prod.snd).sum = 2 * aretes.length := by
  have h := somme_foldl_degres aretes []
  simpa [calculerDegres] using h

theorem longueur_calculerDegres (aretes : List Arete) :
    (calculerDegres aretes).length = (sommetsTouches aretes).card := by
  have hnodup : ((calculerDegres aretes).map Prod.fst).Nodup :=
    nodup_cles_foldl_degres aretes [] (by simp)
  have hset : ((calculerDegres aretes).map Prod.fst).toFinset = sommetsTouches aretes := by
    have h := clesFinset_foldl_degres aretes []
    simpa [calculerDegres] using h
  calc (calculerDegres aretes).length
      = ((calculerDegres aretes).map Prod.fst).length := (List.length_map _ _).symm
    _ = ((calculerDegres aretes).map Prod.fst).toFinset.card :=
        (List.toFinset_card_of_nodup hnodup).symm
    _ = (sommetsTouches aretes).card := by rw [hset]

theorem touches_eq_nbAretesTouchant (aretes : List Arete) (j : ℕ)
    (h : ∀ a ∈ aretes, a.fromIdx ≠ a.toIdx) :
    touchesAretes aretes j = nbAretesTouchant aretes j := by
  induction aretes with
  | nil => rfl
  | cons a t ih =>
    have hne := h a (List.mem_cons_self a t)
    have iht := ih fun x hx => h x (List.mem_cons_of_mem a hx)
    simp only [touchesAretes, nbAretesTouchant, List.map_cons, List.sum_cons,
      List.filter_cons] at iht ⊢
    by_cases h1 : a.fromIdx = j <;> by_cases h2 : a.toIdx = j
    · exact absurd (h1.trans h2.symm) hne
    · have hj2 : ¬j = a.toIdx := fun hh => h2 hh.symm
      simp [h1, h2, hj2, iht]
      omega
    · have hj1 : ¬j = a.fromIdx := fun hh => h1 hh.symm
      simp [h2, h1, hj1, iht]
      omega
    · have hj1 : ¬j = a.fromIdx := fun hh => h1 hh.symm
      have hj2 : ¬j = a.toIdx := fun hh => h2 hh.symm
      simp [hj1, hj2, h1, h2, iht]

/-- The mean degree as the spec words it: total degree (twice the number of
edges) divided by the number of nodes touched by at least one edge. -/
def degreMoyenSpec (aretes : List Arete) : ℚ :=
  ((2 * aretes.length : ℕ) : ℚ) / (((sommetsTouches aretes).card : ℕ) : ℚ)

/-- C4: on a non-empty edge list without self-loops, the popularity penalty
counts each candidate's degree over the full edge list, takes the mean
degree over the nodes with at least one edge, multiplies the score of every
candidate whose degree exceeds that mean by
`1 - (degree - mean)/mean × 0.1`, and leaves every candidate at or below
the mean untouched. -/
theorem penalite_popularite_caracterisee (scores : List EntreeScore) (aretes : List Arete)
    (hne : aretes ≠ [])
    (hsimple : ∀ a ∈ aretes, a.fromIdx ≠ a.toIdx) :
    penaliser_films_populaires scores aretes 0.1 =
      scores.map fun e =>
        if degreMoyenSpec aretes < ((nbAretesTouchant aretes e.idx : ℕ) : ℚ) then
          ⟨e.idx,
            e.score * (1 - (((nbAretesTouchant aretes e.idx : ℕ) : ℚ) -
              degreMoyenSpec aretes) / degreMoyenSpec aretes * 0.1),
            e.score_total, e.nb_connexions, some (nbAretesTouchant aretes e.idx)⟩
        else
          ⟨e.idx, e.score, e.score_total, e.nb_connexions,
            some (nbAretesTouchant aretes e.idx)⟩ := by
  have hdeg : ∀ j, chercherVal (calculerDegres aretes) j = nbAretesTouchant aretes j :=
    fun j => (chercherVal_calculerDegres aretes j).trans
      (touches_eq_nbAretesTouchant aretes j hsimple)
  have hmoy : ((((calculerDegres aretes).map Prod.snd).sum : ℕ) : ℚ) /
      (((calculerDegres aretes).length : ℕ) : ℚ) = degreMoyenSpec aretes := by
    rw [somme_calculerDegres, longueur_calculerDegres, degreMoyenSpec]
  have hnonvide : (calculerDegres aretes).isEmpty = false := by
    obtain ⟨a, t, rfl⟩ := List.exists_cons_of_ne_nil hne
    rw [List.isEmpty_eq_false_iff_exists_mem]
    have : (calculerDegres (a :: t)).length = (sommetsTouches (a :: t)).card :=
      longueur_calculerDegres _
    have hmem : a.fromIdx ∈ sommetsTouches (a :: t) := by
      simp [sommetsTouches]
    have hlen : 0 < (calculerDegres (a :: t)).length := by
      rw [this]
      exact Finset.card_pos.mpr ⟨a.fromIdx, hmem⟩
    exact List.exists_mem_of_length_pos hlen
  unfold penaliser_films_populaires
  simp only [hnonvide, Bool.false_eq_true, if_false, hdeg, hmoy]

/-- Concrete edges for the C4 witness: degrees 0↦3, 1↦2, 2↦2, 3↦1,
mean degree 2. -/
def aretesPen : List Arete := [⟨0, 1, 1/2⟩, ⟨0, 2, 1/2⟩, ⟨0, 3, 1/2⟩, ⟨1, 2, 1/2⟩]

/-- Concrete score entries for the C4 witness: node 0 (degree 3 > mean 2,
penalised to 0.95), node 3 (degree 1 ≤ mean, untouched). -/
def scoresPen : List EntreeScore := [⟨0, 1, 1, 1, none⟩, ⟨3, 1, 1, 1, none⟩]

/-- Witness for C4 at the concrete edge list and scores. -/
theorem penalite_popularite_caracterisee_temoin :
    aretesPen ≠ [] ∧ (∀ a ∈ aretesPen, a.fromIdx ≠ a.toIdx) ∧
      penaliser_films_populaires scoresPen aretesPen 0.1 =
        scoresPen.map fun e =>
          if degreMoyenSpec aretesPen < ((nbAretesTouchant aretesPen e.idx : ℕ) : ℚ) then
            ⟨e.idx,
              e.score * (1 - (((nbAretesTouchant aretesPen e.idx : ℕ) : ℚ) -
                degreMoyenSpec aretesPen) / degreMoyenSpec aretesPen * 0.1),
              e.score_total, e.nb_connexions, some (nbAretesTouchant aretesPen e.idx)⟩
          else
            ⟨e.idx, e.score, e.score_total, e.nb_connexions,
              some (nbAretesTouchant aretesPen e.idx)⟩ :=
  ⟨by decide, by decide,
    penalite_popularite_caracterisee scoresPen aretesPen (by decide) (by decide)⟩

/-! ### C9 / C10: deduplication -/

theorem dedupAux_sublist (vus : List String) (l : List Reco) :
    (dedupAux vus l).Sublist l := by
  induction l generalizing vus with
  | nil => exact List.Sublist.refl []
  | cons a t ih =>
    simp only [dedupAux]
    split_ifs with h1 h2
    · exact (ih vus).trans (List.sublist_cons_self a t)
    · exact (ih _).cons₂ a
    · exact (ih vus).cons₂ a

theorem dedupAux_absent (vus : List String) (l : List Reco) :
    ∀ x ∈ dedupAux vus l, tnReco x ≠ "" → tnReco x ∉ vus := by
  induction l generalizing vus with
  | nil => intro x hx; simp [dedupAux] at hx
  | cons a t ih =>
    intro x hx hne
    simp only [dedupAux] at hx
    split_ifs at hx with h1 h2
    · exact ih vus x hx hne
    · rcases List.mem_cons.mp hx with rfl | hx'
      · exact fun hv => h1 ⟨h2, hv⟩
      · exact fun hv => ih (tnReco a :: vus) x hx' hne (List.mem_cons_of_mem _ hv)
    · rcases List.mem_cons.mp hx with rfl | hx'
      · exact absurd hne h2
      · exact ih vus x hx' hne

theorem dedupAux_pairwise (vus : List String) (l : List Reco) :
    (dedupAux vus l).Pairwise fun a b => tnReco a = tnReco b → tnReco a = "" := by
  induction l generalizing vus with
  | nil => exact List.Pairwise.nil
  | cons a t ih =>
    simp only [dedupAux]
    split_ifs with h1 h2
    · exact ih vus
    · refine List.Pairwise.cons ?_ (ih _)
      intro b hb heq
      by_contra habs
      have hbne : tnReco b ≠ "" := fun h => habs (heq.trans h)
      exact dedupAux_absent _ _ b hb hbne (heq ▸ List.mem_cons_self _ _)
    · refine List.Pairwise.cons ?_ (ih vus)
      intro b _ _
      exact not_not.mp h2

theorem dedupAux_garde_max (l : List Reco) :
    ∀ vus : List String, (l.Pairwise fun a b => b.score ≤ a.score) →
      ∀ x ∈ dedupAux vus l, ∀ y ∈ l,
        tnReco y = tnReco x → tnReco x ≠ "" → y.score ≤ x.score := by
  induction l with
  | nil => intro vus _ x hx; simp [dedupAux] at hx
  | cons a t ih =>
    intro vus hsorted x hx y hy heq hne
    rw [List.pairwise_cons] at hsorted
    obtain ⟨ha, ht⟩ := hsorted
    simp only [dedupAux] at hx
    split_ifs at hx with h1 h2
    · rcases List.mem_cons.mp hy with rfl | hy'
      · exact absurd (heq ▸ h1.2) (dedupAux_absent vus t x hx hne)
      · exact ih vus ht x hx y hy' heq hne
    · rcases List.mem_cons.mp hx with rfl | hx'
      · rcases List.mem_cons.mp hy with rfl | hy'
        · exact le_refl _
        · exact ha y hy'
      · rcases List.mem_cons.mp hy with rfl | hy'
        · refine absurd ?_ (dedupAux_absent (tnReco y :: vus) t x hx' hne)
          rw [← heq]
          exact List.mem_cons_self _ _
        · exact ih (tnReco a :: vus) ht x hx' y hy' heq hne
    · rcases List.mem_cons.mp hx with rfl | hx'
      · rcases List.mem_cons.mp hy with rfl | hy'
        · exact le_refl _
        · exact ha y hy'
      · rcases List.mem_cons.mp hy with rfl | hy'
        · exact absurd (heq ▸ not_not.mp h2) hne
        · exact ih vus ht x hx' y hy' heq hne

theorem dedupAux_filtre_titres_vides (vus : List String) (l : List Reco) :
    (dedupAux vus l).filter (fun r => tnReco r == "") =
      l.filter fun r => tnReco r == "" := by
  induction l generalizing vus with
  | nil => rfl
  | cons a t ih =>
    simp only [dedupAux]
    split_ifs with h1 h2
    · rw [ih vus, List.filter_cons, if_neg (by simp [h1.1])]
    · rw [List.filter_cons, List.filter_cons, if_neg (by simp [h2]), if_neg (by simp [h2]),
        ih]
    · have h0 : tnReco a = "" := not_not.mp h2
      rw [List.filter_cons, List.filter_cons, if_pos (by simp [h0]), if_pos (by simp [h0]),
        ih vus]

theorem pairwise_trierParScore (l : List Reco) :
    (trierParScore l).Pairwise fun a b => b.score ≤ a.score := by
  have htrans : ∀ a b c : Reco, ordreScoreDec a b → ordreScoreDec b c → ordreScoreDec a c := by
    intro a b c h1 h2
    simp only [ordreScoreDec, decide_eq_true_eq] at h1 h2 ⊢
    exact le_trans h2 h1
  have htotal : ∀ a b : Reco, ordreScoreDec a b || ordreScoreDec b a := by
    intro a b
    simp only [ordreScoreDec, Bool.or_eq_true, decide_eq_true_eq]
    exact le_total b.score a.score
  have h : (List.mergeSort l ordreScoreDec).Pairwise fun a b => ordreScoreDec a b :=
    List.sorted_mergeSort htrans htotal l
  exact h.imp fun hab => by simpa [ordreScoreDec] using hab

theorem pairwise_classees (films_data : List Film) (aretes : List Arete)
    (titres_connus : Finset String) (pen : Bool) (nb : Option ℕ) :
    (recommandationsClassees films_data aretes titres_connus pen nb).Pairwise
      fun a b => b.score ≤ a.score := by
  simp only [recommandationsClassees]
  split_ifs
  · exact List.Pairwise.nil
  · exact List.Pairwise.nil
  · exact pairwise_trierParScore _
  · exact pairwise_trierParScore _

/-- C9 (amended): in the final list no two candidates share a non-empty
normalized title, and every surviving candidate scores at least as high as
every candidate of the ranked list that carries the same non-empty
normalized title — the kept instance is a highest-scoring duplicate.
(Candidates whose title normalizes to `""` are exempt from deduplication,
see the counterexample and C10.) -/
theorem dedup_garde_meilleur (films_data : List Film) (aretes : List Arete)
    (titres_connus : Finset String) (top_n : ℕ) (pen : Bool) (nb : Option ℕ) :
    ((recommander films_data aretes titres_connus top_n pen nb).Pairwise
      fun a b => tnReco a = tnReco b → tnReco a = "") ∧
    ∀ x ∈ recommander films_data aretes titres_connus top_n pen nb,
      ∀ y ∈ recommandationsClassees films_data aretes titres_connus pen nb,
        tnReco y = tnReco x → tnReco x ≠ "" → y.score ≤ x.score := by
  constructor
  · refine List.Pairwise.sublist (List.take_sublist _ _) ?_
    exact dedupAux_pairwise [] _
  · intro x hx y hy heq hne
    have hx' : x ∈ dedupliquer (recommandationsClassees films_data aretes titres_connus
        pen nb) := List.mem_of_mem_take hx
    exact dedupAux_garde_max _ [] (pairwise_classees films_data aretes titres_connus pen nb)
      x hx' y hy heq hne

/-- Witness for the amended C9 at concrete inputs. -/
theorem dedup_garde_meilleur_temoin :
    (((recommander [filmG1, filmG2] [areteT1] ∅ 5 false none).Pairwise
      fun a b => tnReco a = tnReco b → tnReco a = "") ∧
    ∀ x ∈ recommander [filmG1, filmG2] [areteT1] ∅ 5 false none,
      ∀ y ∈ recommandationsClassees [filmG1, filmG2] [areteT1] ∅ false none,
        tnReco y = tnReco x → tnReco x ≠ "" → y.score ≤ x.score) :=
  dedup_garde_meilleur [filmG1, filmG2] [areteT1] ∅ 5 false none

/-- C10: a candidate whose title normalizes to the empty string is never
removed by the dedup walk — the sublist of empty-keyed candidates is
preserved exactly, whatever was already seen — and the listed degenerate
titles (empty, whitespace-only, whitespace plus a parenthesized 4-digit
year, absent) all normalize to `""`. -/
theorem titres_vides_jamais_dedupliques :
    (∀ (vus : List String) (l : List Reco),
      (dedupAux vus l).filter (fun r => tnReco r == "") =
        l.filter fun r => tnReco r == "") ∧
    _normaliser_titre_reco "" = "" ∧
    _normaliser_titre_reco "   " = "" ∧
    _normaliser_titre_reco "  (1999)  " = "" ∧
    tnFilm filmVide = "" :=
  ⟨dedupAux_filtre_titres_vides, by decide, by decide, by decide, by decide⟩

/-- Witness for C10: two untitled candidates with distinct scores survive
the dedup walk in full. -/
theorem titres_vides_jamais_dedupliques_temoin :
    (dedupAux [] [⟨1, 1, filmVide⟩, ⟨2, 0, filmVide⟩]).filter
        (fun r => tnReco r == "") =
      [(⟨1, 1, filmVide⟩ : Reco), ⟨2, 0, filmVide⟩].filter fun r => tnReco r == "" :=
  titres_vides_jamais_dedupliques.1 [] [⟨1, 1, filmVide⟩, ⟨2, 0, filmVide⟩]

/-! ### C8: the concrete propagation scenario -/

/-- Known movie of the concrete scenario. -/
def filmC0 : Film := ⟨some "Connu", none, [], none, [], none⟩

/-- First candidate of the concrete scenario. -/
def filmC1 : Film := ⟨some "Reco Un", none, [], none, [], none⟩

/-- Second candidate of the concrete scenario. -/
def filmC2 : Film := ⟨some "Reco Deux", none, [], none, [], none⟩

/-- The scenario edges `{(0,1,0.8), (0,2,0.2), (1,2,0.9)}`. -/
def aretesScenario : List Arete := [⟨0, 1, 0.8⟩, ⟨0, 2, 0.2⟩, ⟨1, 2, 0.9⟩]

theorem accumulation_scenario :
    accumulerScores aretesScenario {0} = [(1, 0.8, 1), (2, 0.2, 1)] := rfl

theorem scores_scenario (films_data : List Film) :
    calculer_scores_recommandation films_data aretesScenario {0} =
      [⟨1, 0.8, 0.8, 1, none⟩, ⟨2, 0.2, 0.2, 1, none⟩] := by
  simp only [calculer_scores_recommandation, accumulation_scenario]
  norm_num

theorem penalite_scenario :
    penaliser_films_populaires [⟨1, 0.8, 0.8, 1, none⟩, ⟨2, 0.2, 0.2, 1, none⟩]
        aretesScenario 0.1 =
      [⟨1, 0.8, 0.8, 1, some 2⟩, ⟨2, 0.2, 0.2, 1, some 2⟩] := by
  have hdeg : calculerDegres aretesScenario = [(0, 2), (1, 2), (2, 2)] := rfl
  simp only [penaliser_films_populaires, hdeg]
  norm_num [chercherVal]

theorem tri_scenario (f1 f2 : Film) :
    trierParScore [⟨1, 0.8, f1⟩, ⟨2, 0.2, f2⟩] = [⟨1, 0.8, f1⟩, ⟨2, 0.2, f2⟩] := by
  rw [trierParScore]
  refine List.mergeSort_of_sorted ?_
  simp only [List.pairwise_cons, List.mem_singleton, List.not_mem_nil, List.Pairwise.nil,
    forall_eq, IsEmpty.forall_iff, implies_true, and_true, ordreScoreDec,
    decide_eq_true_eq]
  norm_num

theorem classees_scenario :
    recommandationsClassees [filmC0, filmC1, filmC2] aretesScenario ∅ true (some 1) =
      trierParScore [⟨1, 0.8, filmC1⟩, ⟨2, 0.2, filmC2⟩] := by
  have hidx : indicesConnusDe [filmC0, filmC1, filmC2] ∅ (some 1) = {0} := by decide
  simp only [recommandationsClassees, hidx, scores_scenario]
  rw [if_neg (by decide : ¬({0} : Finset ℕ) = ∅), if_neg (by simp), if_pos trivial,
    penalite_scenario]
  rfl

/-- C8: with known index 0 and edges `(0,1,0.8)`, `(0,2,0.2)`, `(1,2,0.9)`
at threshold 0, node 1 gets raw score `0.8/max(1,1) = 0.8` and node 2 gets
`0.2`, and `recommander` returns the candidates in the order `[1, 2]`. -/
theorem scenario_propagation_concret :
    ((calculer_scores_recommandation [filmC0, filmC1, filmC2] aretesScenario {0}).map
        fun e => (e.idx, e.score)) = [(1, 0.8), (2, 0.2)] ∧
    ((recommander [filmC0, filmC1, filmC2] aretesScenario ∅ 10 true (some 1)).map
        fun r => r.idx) = [1, 2] := by
  constructor
  · rw [scores_scenario]
    rfl
  · rw [recommander, classees_scenario, tri_scenario]
    rfl

theorem classees_contre_exemple :
    recommandationsClassees [filmC0, filmVide, filmVide] aretesScenario ∅ true (some 1) =
      trierParScore [⟨1, 0.8, filmVide⟩, ⟨2, 0.2, filmVide⟩] := by
  have hidx : indicesConnusDe [filmC0, filmVide, filmVide] ∅ (some 1) = {0} := by decide
  simp only [recommandationsClassees, hidx, scores_scenario]
  rw [if_neg (by decide : ¬({0} : Finset ℕ) = ∅), if_neg (by simp), if_pos trivial,
    penalite_scenario]
  rfl

/-- C9 counterexample: two untitled candidates have matching normalized
titles (both `""`) and distinct scores 0.8 ≠ 0.2, yet both appear in the
final list — the claim "only the higher-scoring one appears" fails when the
normalized titles are empty, because the dedup walk skips empty keys. -/
theorem dedup_contre_exemple :
    ((recommander [filmC0, filmVide, filmVide] aretesScenario ∅ 10 true (some 1)).map
        fun r => (r.idx, tnReco r)) = [(1, ""), (2, "")] ∧
    ((recommander [filmC0, filmVide, filmVide] aretesScenario ∅ 10 true (some 1)).map
        fun r => r.score) = [0.8, 0.2] ∧
    (0.8 : ℚ) ≠ 0.2 := by
  refine ⟨?_, ?_, by norm_num⟩
  · rw [recommander, classees_contre_exemple, tri_scenario]
    rfl
  · rw [recommander, classees_contre_exemple, tri_scenario]
    rfl
